import Mathlib

/-!
Shallow embedding of the batch similarity-ranking and top-N recommendation
pipeline of this repository: `recommendation_engine/embeddings.py`
(`generate_embeddings`), `recommendation_engine/recommender.py`
(`calculate_similarity`), `utils/bigquery_utils.py` (`delete_table`,
`create_table`, `write_to_bigquery`) and the `__main__` batch script
`recommendation_engine/create_recommendation.py`.

External collaborators (the Vertex AI prediction service, the BigQuery
client, the sklearn metric kernels) are modelled as oracle parameters;
everything the repository's own code does with their results is embedded
faithfully.  Machine floats are modelled as rationals; vectors as `List ℚ`.
-/

namespace VertexReco

/-- Embedding vectors: ordered sequences of numbers (floats modelled as `ℚ`). -/
abbrev Vec := List ℚ

/-! ## Embedding Provider Adapter (`embeddings.py`) -/

/-- Chunking of `generate_embeddings`: `for i in range(0, len(instances), batch_size):
batch = instances[i:i + batch_size]`.  The loop runs `⌈len/bs⌉` times (written as
`(len + bs - 1) / bs`) and iteration `i` slices off `l[i*bs : i*bs + bs]`. -/
def chunkList (bs : Nat) (l : List α) : List (List α) :=
  (List.range ((l.length + bs - 1) / bs)).map fun i => (l.drop (i * bs)).take bs

/-- Retry loop of `generate_embeddings`: `retries = 0; while not success and
retries < max_retries: try ... except: retries += 1`.  `call k` is the outcome of
the remote predict call on (0-based) attempt `k`; `remaining` counts the attempts
still allowed.  The loop makes at most `max_retries` attempts in total (attempt
indices `0 .. max_retries - 1`) and stops at the first success. -/
def retryCall (call : Nat → Option (List Vec)) : Nat → Nat → Option (List Vec)
  | _, 0 => none
  | attempt, remaining + 1 =>
    match call attempt with
    | some vs => some vs
    | none => retryCall call (attempt + 1) remaining

/-- Whole retry loop for one chunk, started at attempt 0 with `maxRetries` attempts
allowed, as in the `while not success and retries < max_retries` loop. -/
def retryChunk (call : Nat → Option (List Vec)) (maxRetries : Nat) : Option (List Vec) :=
  retryCall call 0 maxRetries

/-- Number of remote calls the retry loop performs. -/
def attemptsUsed (call : Nat → Option (List Vec)) : Nat → Nat → Nat
  | _, 0 => 0
  | attempt, remaining + 1 =>
    match call attempt with
    | some _ => 1
    | none => 1 + attemptsUsed call (attempt + 1) remaining

/-- Embedding of `generate_embeddings(publisher, model_name, max_retries, batch_size,
texts)`.  The remote service is the oracle `call ci k batch`: the response of the
predict call for the chunk with index `ci` on attempt `k` (`none` models a raised
exception).  On success the code appends `prediction.get("embeddings", {}).get("values")`
for each prediction, skipping falsy (empty) values; a chunk whose retries are
exhausted contributes nothing. -/
def generate_embeddings (call : Nat → Nat → List String → Option (List Vec))
    (maxRetries batchSize : Nat) (texts : List String) : List Vec :=
  ((chunkList batchSize texts).enum.map fun p =>
    match retryChunk (fun k => call p.1 k p.2) maxRetries with
    | some vs => vs.filter fun v => !v.isEmpty
    | none => []).flatten

/-! ## Similarity Engine (`recommender.py`) -/

/-- Embedding of `calculate_similarity(user_embedding, media_embeddings, metric)`.
The sklearn kernels are oracles `cos` (cosine similarity) and `dist` (Euclidean
distance); both sklearn calls return one score per candidate, in candidate order.
The code uses cosine as-is, negates Euclidean distance, and raises `ValueError`
for any other metric name. -/
def calculate_similarity (cos dist : Vec → Vec → ℚ) (userEmbedding : Vec)
    (mediaEmbeddings : List Vec) (metric : String) : Except String (List ℚ) :=
  if metric = "cosine" then
    .ok (mediaEmbeddings.map fun m => cos userEmbedding m)
  else if metric = "euclidean" then
    .ok (mediaEmbeddings.map fun m => -(dist userEmbedding m))
  else
    .error ("Unsupported similarity metric: " ++ metric)

/-! ## Top-N Ranker (`create_recommendation.py` lines 106-117) -/

/-- Python list slicing `l[:n]`: for `n ≥ 0` the first `n` elements, for `n < 0`
all but the last `min(-n, len(l))` elements. -/
def pySlice (l : List α) (n : Int) : List α :=
  if 0 ≤ n then l.take n.toNat
  else l.take (l.length - min (-n).toNat l.length)

/-- Length of `pySlice l n` as a function of `n` and `l.length`. -/
def sliceLen (n : Int) (len : Nat) : Nat :=
  if 0 ≤ n then min n.toNat len else len - min (-n).toNat len

/-- Sort order of `sorted(media_with_similarity, key=lambda x: x[1], reverse=True)`:
`a` may precede `b` exactly when `b`'s score does not exceed `a`'s. -/
def descBySnd (a b : String × ℚ) : Prop := b.2 ≤ a.2

instance : DecidableRel descBySnd := fun a b => inferInstanceAs (Decidable (b.2 ≤ a.2))

instance : IsTotal (String × ℚ) descBySnd := ⟨fun a b => le_total b.2 a.2⟩

instance : IsTrans (String × ℚ) descBySnd := ⟨fun _ _ _ h h' => le_trans h' h⟩

/-- Embedding of Python's `sorted(pairs, key=lambda x: x[1], reverse=True)`:
a stable sort, descending in the second component.  Python's Timsort and
insertion sort are extensionally equal (both are stable sorts of the same
ordering), so the sort is modelled by `List.insertionSort`. -/
def pySortDesc (l : List (String × ℚ)) : List (String × ℚ) :=
  List.insertionSort descBySnd l

/-- Ranking steps of the per-user loop of `create_recommendation.py`:
`sorted_media = sorted(zip(ids, sims), key=x[1], reverse=True)`;
`top_n = sorted_media[:n]`; `for rank, (media_id, score) in enumerate(top_n)`
emit `(media_id, rank + 1, score)`. -/
def topNRank (ids : List String) (scores : List ℚ) (n : Int) :
    List (String × Nat × ℚ) :=
  ((pySlice (pySortDesc (ids.zip scores)) n).enum).map fun p => (p.2.1, p.1 + 1, p.2.2)

/-! ## Result Sink (`utils/bigquery_utils.py`) -/

/-- Embedding of `delete_table(client, table_ref)`.  `tableExists` is the result of
`check_table_exists`; `clientDelete` models `client.delete_table` (`.error` = raised
exception).  Every exception is caught and only printed, so the function always
returns normally; the returned value is the logged error message, if any. -/
def delete_table (tableExists : Bool) (clientDelete : Except String Unit) :
    Option String :=
  if tableExists then
    match clientDelete with
    | .ok _ => none
    | .error e => some e
  else none

/-- Embedding of `create_table(client, table_ref, schema)` for an absent or present
table.  As in `delete_table`, `client.create_table` exceptions are caught and only
printed (`return None`), never re-raised. -/
def create_table (tableExists : Bool) (clientCreate : Except String Unit) :
    Option String :=
  if tableExists then none
  else
    match clientCreate with
    | .ok _ => none
    | .error e => some e

/-- One Recommendation Row, as assembled by the batch loop and defined by the
BigQuery schema in `create_recommendation.py`. -/
structure Row where
  user_id : String
  recommended_media_id : String
  rank : Nat
  similarity_score : ℚ
  processing_timestamp : String
deriving DecidableEq, Repr

/-- Row with the `processing_timestamp` field projected away. -/
def Row.stripTs (r : Row) : String × String × Nat × ℚ :=
  (r.user_id, r.recommended_media_id, r.rank, r.similarity_score)

/-- Outcome of the final persistence step of the run. -/
inductive WriteOutcome where
  /-- `write_to_bigquery` printed "No data to write." and returned. -/
  | noData
  /-- `insert_rows_json` returned `[]`; `n` rows were written. -/
  | wrote (n : Nat)
  /-- `insert_rows_json` returned a non-empty error list (printed, not raised). -/
  | insertErrors
  /-- `insert_rows_json` raised; the exception was caught and printed. -/
  | raisedCaught
  /-- the run crashed before reaching `write_to_bigquery`. -/
  | notReached
deriving DecidableEq, Repr

/-- Embedding of `write_to_bigquery(client, table_ref, data)`.  `insertResult`
models `client.insert_rows_json`: `.ok errs` is its returned error list, `.error`
a raised exception (caught and printed).  Empty data short-circuits. -/
def write_to_bigquery (insertResult : Except String (List String))
    (data : List Row) : WriteOutcome :=
  if data.isEmpty then .noData
  else
    match insertResult with
    | .ok [] => .wrote data.length
    | .ok _ => .insertErrors
    | .error _ => .raisedCaught

/-! ## Batch Orchestrator (`create_recommendation.py` `__main__`) -/

/-- Media entries of `media_embeddings_map` that survive the per-user filter
`[media_id for media_id, emb in media_embeddings_map.items() if emb]`
(Python truthiness: a vector is kept when it is non-empty). -/
def validMedia (mediaMap : List (String × Vec)) : List (String × Vec) :=
  mediaMap.filter fun p => !p.2.isEmpty

/-- Rows the per-user loop body emits for one user: skip a falsy (empty) user
embedding, filter media to truthy embeddings, skip the user when none remain,
score the valid media with the configured metric, sort descending by score,
apply the `[:top_n_to_store]` slice and emit one row per rank.  A `ValueError`
raised by `calculate_similarity` propagates as `.error`. -/
def userRows (cos dist : Vec → Vec → ℚ) (metric : String) (topN : Int)
    (ts : String) (mediaMap : List (String × Vec)) (uid : String) (uemb : Vec) :
    Except String (List Row) :=
  if uemb.isEmpty then .ok []
  else
    let valid := validMedia mediaMap
    if valid.isEmpty then .ok []
    else
      match calculate_similarity cos dist uemb (valid.map Prod.snd) metric with
      | .error e => .error e
      | .ok sims =>
        .ok (((pySlice (pySortDesc ((valid.map Prod.fst).zip sims)) topN).enum).map
          fun p => ⟨uid, p.2.1, p.1 + 1, p.2.2, ts⟩)

/-- The full `for user_id, user_embedding in user_embeddings_map.items()` loop,
appending each user's rows to `all_recommendations_to_store` in iteration order. -/
def assembleRows (cos dist : Vec → Vec → ℚ) (metric : String) (topN : Int)
    (ts : String) (mediaMap : List (String × Vec)) :
    List (String × Vec) → Except String (List Row)
  | [] => .ok []
  | (uid, uemb) :: rest => do
    let rs ← userRows cos dist metric topN ts mediaMap uid uemb
    let rest' ← assembleRows cos dist metric topN ts mediaMap rest
    pure (rs ++ rest')

/-- Observable result of one batch run. -/
structure RunResult where
  /-- error logged (and swallowed) by `delete_table`, if any. -/
  deleteError : Option String
  /-- error logged (and swallowed) by `create_table`, if any. -/
  createError : Option String
  /-- `all_recommendations_to_store` at the end of the loop. -/
  rows : List Row
  /-- result of the final `write_to_bigquery` call. -/
  writeOutcome : WriteOutcome
  /-- whether the script reached its final completion message. -/
  completed : Bool
  /-- uncaught exception that terminated the run early, if any. -/
  crashed : Option String
deriving DecidableEq, Repr

/-- Embedding of the `__main__` batch script of `create_recommendation.py`, from
the delete/recreate of the recommendations table to the final write.  Users and
media arrive as `(identifier, prepared text)` pairs (the fetched rows after
`prepare_*_text_for_embedding`); `callU`/`callM` are the embedding-service
oracles for the two `generate_embeddings` calls; `ts` is the single
`SELECT CURRENT_TIMESTAMP()` value; `insertResult` models `insert_rows_json`.
The script builds `dict(zip(ids, embeddings))` for users and media (identifiers
are unique within a type, so the dict is the positional zip, in insertion
order), assembles all rows, then writes them. -/
def runBatch (recTableExists : Bool) (clientDelete : Except String Unit)
    (recTableExistsAfter : Bool) (clientCreate : Except String Unit)
    (users media : List (String × String))
    (callU callM : Nat → Nat → List String → Option (List Vec))
    (maxRetries batchSize : Nat)
    (metric : String) (cos dist : Vec → Vec → ℚ) (topN : Int)
    (ts : String) (insertResult : Except String (List String)) : RunResult :=
  let delErr := delete_table recTableExists clientDelete
  let creErr := create_table recTableExistsAfter clientCreate
  let userVecs := generate_embeddings callU maxRetries batchSize (users.map Prod.snd)
  let userMap := (users.map Prod.fst).zip userVecs
  let mediaVecs := generate_embeddings callM maxRetries batchSize (media.map Prod.snd)
  let mediaMap := (media.map Prod.fst).zip mediaVecs
  match assembleRows cos dist metric topN ts mediaMap userMap with
  | .error e => ⟨delErr, creErr, [], .notReached, false, some e⟩
  | .ok rows => ⟨delErr, creErr, rows, write_to_bigquery insertResult rows, true, none⟩

/-- Pairwise score actually used once `calculate_similarity` has dispatched on a
valid metric name: cosine as-is, Euclidean distance negated. -/
def metricFn (cos dist : Vec → Vec → ℚ) (metric : String) : Vec → Vec → ℚ :=
  if metric = "cosine" then cos else fun u m => -(dist u m)

/-- Rows the per-user loop body emits for one user along the non-raising path,
with `g` the dispatched pairwise score (a characterization of `userRows` used
by the lemmas below, not a second model). -/
def userRowsOk (g : Vec → Vec → ℚ) (topN : Int) (ts : String)
    (mediaMap : List (String × Vec)) (uid : String) (uemb : Vec) : List Row :=
  if uemb.isEmpty then []
  else
    let valid := validMedia mediaMap
    if valid.isEmpty then []
    else
      ((pySlice (pySortDesc ((valid.map Prod.fst).zip
          ((valid.map Prod.snd).map (g uemb)))) topN).enum).map
        fun p => ⟨uid, p.2.1, p.1 + 1, p.2.2, ts⟩

/-- All rows of one batch run along the non-raising path (characterization of
the rows field of `runBatch`). -/
def batchRowsOk (g : Vec → Vec → ℚ) (topN : Int) (ts : String)
    (users media : List (String × String))
    (callU callM : Nat → Nat → List String → Option (List Vec))
    (maxRetries batchSize : Nat) : List Row :=
  let userMap := (users.map Prod.fst).zip
    (generate_embeddings callU maxRetries batchSize (users.map Prod.snd))
  let mediaMap := (media.map Prod.fst).zip
    (generate_embeddings callM maxRetries batchSize (media.map Prod.snd))
  (userMap.map fun p => userRowsOk g topN ts mediaMap p.1 p.2).flatten

/-! ## Concrete oracles used by witnesses and counterexamples -/

/-- Concrete embedding oracle for witnesses: each entity text gets a distinct
one-dimensional vector. -/
def embedW (t : String) : Vec :=
  if t = "ut" then [1] else if t = "t1" then [2] else [3]

/-- Concrete pairwise score oracle for witnesses: the candidate's first
coordinate (kept free of rational arithmetic so that witnesses evaluate
inside the kernel). -/
def scoreW (_u v : Vec) : ℚ := v.headD 0

/-- Concrete remote call that succeeds by returning the per-text embeddings. -/
def callOkW : Nat → Nat → List String → Option (List Vec) :=
  fun _ _ ch => some (ch.map embedW)

/-- Concrete remote call that fails every attempt of the chunk with index 0 and
succeeds elsewhere. -/
def callFail0W : Nat → Nat → List String → Option (List Vec) :=
  fun ci _ ch => if ci = 0 then none else some (ch.map embedW)

/-- Concrete remote call that fails every attempt of every chunk. -/
def callAllFailW : Nat → Nat → List String → Option (List Vec) :=
  fun _ _ _ => none

/-- Concrete single-chunk attempt oracle failing attempts 0 and 1 and succeeding
from attempt 2 on. -/
def callThirdTimeW : Nat → Option (List Vec) :=
  fun k => if k < 2 then none else some [[1]]

/-- The rational 1/10, given in reduced constructor form so the kernel can
compare it without running gcd normalization. -/
def r01 : ℚ := ⟨1, 10, by decide, by norm_num⟩

/-- The rational 9/10 in reduced constructor form. -/
def r09 : ℚ := ⟨9, 10, by decide, by norm_num⟩

/-- The rational 1/2 in reduced constructor form. -/
def r05 : ℚ := ⟨1, 2, by decide, by norm_num⟩

/-! ## Analysis helpers for the partial-failure misalignment -/

/-- Texts of a run of chunks, each tagged with whether its retries were
exhausted. -/
def flatTexts (L : List (List String × Bool)) : List String :=
  (L.map Prod.fst).flatten

/-- Vectors the embedding stage returns for tagged chunks: a failed chunk
contributes nothing, a successful chunk one vector per text. -/
def flatVecs (embedF : String → Vec) (L : List (List String × Bool)) : List Vec :=
  (L.map fun p => if p.2 then [] else p.1.map embedF).flatten

/-! ## Helper lemmas: sorting -/

/-- The stable descending sort leaves the sublist of entries carrying any fixed
score untouched: inserting `x` walks only past entries with strictly larger
scores, so per-score sublists are preserved.  This is the formal content of
"ties keep the relative order in which they appeared in the input". -/
theorem filter_orderedInsert_snd (s : ℚ) (x : String × ℚ) :
    ∀ l : List (String × ℚ),
      (List.orderedInsert descBySnd x l).filter (fun p => decide (p.2 = s)) =
        if x.2 = s then x :: l.filter (fun p => decide (p.2 = s))
        else l.filter (fun p => decide (p.2 = s)) := by
  intro l
  induction l with
  | nil =>
    by_cases hx : x.2 = s <;> simp [List.orderedInsert, List.filter, hx]
  | cons y ys ih =>
    by_cases hins : descBySnd x y
    · by_cases hx : x.2 = s <;> simp [List.orderedInsert, hins, List.filter, hx]
    · have hxy : x.2 < y.2 := lt_of_not_le (by simpa [descBySnd] using hins)
      by_cases hx : x.2 = s
      · have hyne : ¬ y.2 = s := by
          intro h
          rw [hx, ← h] at hxy
          exact lt_irrefl _ hxy
        simp [List.orderedInsert, hins, List.filter, hyne, ih, hx]
      · by_cases hyne : y.2 = s <;>
          simp [List.orderedInsert, hins, List.filter, hyne, ih, hx]

/-- Stability of the embedded Python sort: filtering the sorted list to any
fixed score gives the same sublist as filtering the input. -/
theorem filter_pySortDesc (s : ℚ) :
    ∀ l : List (String × ℚ),
      (pySortDesc l).filter (fun p => decide (p.2 = s)) =
        l.filter (fun p => decide (p.2 = s)) := by
  intro l
  induction l with
  | nil => rfl
  | cons x xs ih =>
    have hstep : pySortDesc (x :: xs) = List.orderedInsert descBySnd x (pySortDesc xs) := rfl
    rw [hstep, filter_orderedInsert_snd]
    by_cases hx : x.2 = s <;> simp [List.filter_cons, hx, ih]

/-- The embedded Python sort is sorted: scores are non-increasing left to right. -/
theorem sorted_pySortDesc (l : List (String × ℚ)) :
    (pySortDesc l).Pairwise descBySnd :=
  List.sorted_insertionSort descBySnd l

/-- The embedded Python sort is a permutation of its input. -/
theorem perm_pySortDesc (l : List (String × ℚ)) : (pySortDesc l).Perm l :=
  List.perm_insertionSort descBySnd l

/-- Sorting preserves length. -/
theorem length_pySortDesc (l : List (String × ℚ)) :
    (pySortDesc l).length = l.length :=
  (perm_pySortDesc l).length_eq

/-! ## Helper lemmas: slicing and ranks -/

/-- A Python prefix slice is always some `take`. -/
theorem pySlice_eq_take (l : List α) (n : Int) :
    pySlice l n = l.take (sliceLen n l.length) := by
  by_cases h : 0 ≤ n <;> simp [pySlice, sliceLen, h]

/-- The slice length never exceeds the list length. -/
theorem sliceLen_le (n : Int) (len : Nat) : sliceLen n len ≤ len := by
  by_cases h : 0 ≤ n
  · simp [sliceLen, h]
  · simp [sliceLen, h]

/-- Length of a Python prefix slice. -/
theorem length_pySlice (l : List α) (n : Int) :
    (pySlice l n).length = sliceLen n l.length := by
  rw [pySlice_eq_take, List.length_take]
  exact Nat.min_eq_left (sliceLen_le n l.length)

/-- A Python prefix slice is a sublist of the sliced list. -/
theorem pySlice_sublist (l : List α) (n : Int) : List.Sublist (pySlice l n) l := by
  rw [pySlice_eq_take]; exact List.take_sublist _ l

/-- For a non-negative bound the slice is a plain `take`. -/
theorem pySlice_of_nonneg (l : List α) {n : Int} (h : 0 ≤ n) :
    pySlice l n = l.take n.toNat := by
  simp [pySlice, h]

/-- Enumerating a list and adding one to each index yields the ranks
`1, 2, ..., length`. -/
theorem enum_ranks (l : List α) :
    l.enum.map (fun p => p.1 + 1) = List.range' 1 l.length := by
  have h1 : l.enum.map (fun p => p.1 + 1) = (l.enum.map Prod.fst).map (fun i => i + 1) := by
    rw [List.map_map]
    rfl
  rw [h1, List.enum_map_fst, List.range'_eq_map_range]
  apply List.map_congr_left
  intro i _
  exact Nat.add_comm i 1

/-! ## Helper lemmas: the per-user loop body -/

/-- With a valid metric name, `calculate_similarity` returns one score per
candidate, in candidate order, computed by the dispatched pairwise score. -/
theorem calculate_similarity_ok (cos dist : Vec → Vec → ℚ) (u : Vec)
    (ms : List Vec) {metric : String}
    (hm : metric = "cosine" ∨ metric = "euclidean") :
    calculate_similarity cos dist u ms metric =
      .ok (ms.map (metricFn cos dist metric u)) := by
  rcases hm with h | h <;> simp [calculate_similarity, metricFn, h]

/-- With a valid metric name, the loop body never raises and emits the
`userRowsOk` rows. -/
theorem userRows_eq_ok (cos dist : Vec → Vec → ℚ) {metric : String}
    (topN : Int) (ts : String) (mm : List (String × Vec)) (uid : String)
    (uemb : Vec) (hm : metric = "cosine" ∨ metric = "euclidean") :
    userRows cos dist metric topN ts mm uid uemb =
      .ok (userRowsOk (metricFn cos dist metric) topN ts mm uid uemb) := by
  unfold userRows userRowsOk
  by_cases h1 : uemb.isEmpty
  · simp [h1]
  · by_cases h2 : (validMedia mm).isEmpty
    · simp [h1, h2]
    · simp [h1, h2, calculate_similarity_ok cos dist uemb _ hm]

/-- With a valid metric name, the whole loop never raises and appends each
user's `userRowsOk` block in iteration order. -/
theorem assembleRows_eq_ok (cos dist : Vec → Vec → ℚ) {metric : String}
    (topN : Int) (ts : String) (mm : List (String × Vec))
    (userMap : List (String × Vec))
    (hm : metric = "cosine" ∨ metric = "euclidean") :
    assembleRows cos dist metric topN ts mm userMap =
      .ok ((userMap.map fun p =>
        userRowsOk (metricFn cos dist metric) topN ts mm p.1 p.2).flatten) := by
  induction userMap with
  | nil => rfl
  | cons p rest ih =>
    cases p with
    | mk uid uemb =>
      simp only [assembleRows, userRows_eq_ok cos dist topN ts mm uid uemb hm, ih,
        List.map_cons, List.flatten_cons]
      rfl

/-- With a valid metric name, one batch run completes, logs (but swallows) any
sink preparation errors, assembles `batchRowsOk` and hands exactly those rows
to `write_to_bigquery`. -/
theorem runBatch_eq_ok (recE : Bool) (d : Except String Unit) (recE' : Bool)
    (c : Except String Unit) (users media : List (String × String))
    (callU callM : Nat → Nat → List String → Option (List Vec))
    (maxRetries batchSize : Nat) {metric : String} (cos dist : Vec → Vec → ℚ)
    (topN : Int) (ts : String) (ins : Except String (List String))
    (hm : metric = "cosine" ∨ metric = "euclidean") :
    runBatch recE d recE' c users media callU callM maxRetries batchSize
        metric cos dist topN ts ins =
      ⟨delete_table recE d, create_table recE' c,
        batchRowsOk (metricFn cos dist metric) topN ts users media callU callM
          maxRetries batchSize,
        write_to_bigquery ins (batchRowsOk (metricFn cos dist metric) topN ts
          users media callU callM maxRetries batchSize),
        true, none⟩ := by
  unfold runBatch batchRowsOk
  simp only [assembleRows_eq_ok cos dist topN ts _ _ hm]

/-- Every row a user's block emits carries that user's identifier. -/
theorem userRowsOk_user_id (g : Vec → Vec → ℚ) (topN : Int) (ts : String)
    (mm : List (String × Vec)) (uid : String) (uemb : Vec) :
    ∀ r ∈ userRowsOk g topN ts mm uid uemb, r.user_id = uid := by
  intro r hr
  by_cases h1 : uemb.isEmpty
  · simp [userRowsOk, h1] at hr
  · by_cases h2 : (validMedia mm).isEmpty
    · simp [userRowsOk, h1, h2] at hr
    · simp [userRowsOk, h1, h2] at hr
      obtain ⟨i, mid, sc, hmem, rfl⟩ := hr
      rfl

/-- Every row a user's block emits carries the shared run timestamp. -/
theorem userRowsOk_ts (g : Vec → Vec → ℚ) (topN : Int) (ts : String)
    (mm : List (String × Vec)) (uid : String) (uemb : Vec) :
    ∀ r ∈ userRowsOk g topN ts mm uid uemb, r.processing_timestamp = ts := by
  intro r hr
  by_cases h1 : uemb.isEmpty
  · simp [userRowsOk, h1] at hr
  · by_cases h2 : (validMedia mm).isEmpty
    · simp [userRowsOk, h1, h2] at hr
    · simp [userRowsOk, h1, h2] at hr
      obtain ⟨i, mid, sc, hmem, rfl⟩ := hr
      rfl

/-- Unfolding of a user's block when neither skip applies. -/
theorem userRowsOk_of_valid (g : Vec → Vec → ℚ) (topN : Int) (ts : String)
    (mm : List (String × Vec)) (uid : String) (uemb : Vec)
    (h1 : uemb.isEmpty = false) (h2 : (validMedia mm).isEmpty = false) :
    userRowsOk g topN ts mm uid uemb =
      ((pySlice (pySortDesc (((validMedia mm).map Prod.fst).zip
          (((validMedia mm).map Prod.snd).map (g uemb)))) topN).enum).map
        fun p => ⟨uid, p.2.1, p.1 + 1, p.2.2, ts⟩ := by
  simp [userRowsOk, h1, h2]

/-- Rank projection of an enumerated block: the ranks `1 .. length`. -/
theorem map_rank_enumRows (uid ts : String) (top : List (String × ℚ)) :
    ((top.enum.map fun p => (⟨uid, p.2.1, p.1 + 1, p.2.2, ts⟩ : Row)).map Row.rank)
      = List.range' 1 top.length := by
  rw [List.map_map]
  have h : (Row.rank ∘ fun p : Nat × String × ℚ =>
      (⟨uid, p.2.1, p.1 + 1, p.2.2, ts⟩ : Row)) = fun p => p.1 + 1 := rfl
  rw [h, enum_ranks]

/-- Score projection of an enumerated block: the scores of the ranked pairs. -/
theorem map_score_enumRows (uid ts : String) (top : List (String × ℚ)) :
    ((top.enum.map fun p => (⟨uid, p.2.1, p.1 + 1, p.2.2, ts⟩ : Row)).map
        Row.similarity_score) = top.map Prod.snd := by
  rw [List.map_map]
  have h : (Row.similarity_score ∘ fun p : Nat × String × ℚ =>
      (⟨uid, p.2.1, p.1 + 1, p.2.2, ts⟩ : Row)) = fun p => p.2.2 := rfl
  rw [h]
  have h2 : (fun p : Nat × String × ℚ => p.2.2) = Prod.snd ∘ Prod.snd := rfl
  rw [h2, ← List.map_map, List.enum_map_snd]

/-- Ranks of any user's block are exactly `1 .. k` for `k` the block length. -/
theorem userRowsOk_ranks (g : Vec → Vec → ℚ) (topN : Int) (ts : String)
    (mm : List (String × Vec)) (uid : String) (uemb : Vec) :
    (userRowsOk g topN ts mm uid uemb).map Row.rank =
      List.range' 1 (userRowsOk g topN ts mm uid uemb).length := by
  by_cases h1 : uemb.isEmpty
  · simp [userRowsOk, h1]
  · by_cases h2 : (validMedia mm).isEmpty
    · simp [userRowsOk, h1, h2]
    · rw [userRowsOk_of_valid g topN ts mm uid uemb (by simpa using h1) (by simpa using h2),
        map_rank_enumRows, List.length_map, List.enum_length]

/-- Scores of any user's block are non-increasing in rank order. -/
theorem userRowsOk_scores (g : Vec → Vec → ℚ) (topN : Int) (ts : String)
    (mm : List (String × Vec)) (uid : String) (uemb : Vec) :
    ((userRowsOk g topN ts mm uid uemb).map Row.similarity_score).Pairwise
      (fun a b => b ≤ a) := by
  by_cases h1 : uemb.isEmpty
  · simp [userRowsOk, h1]
  · by_cases h2 : (validMedia mm).isEmpty
    · simp [userRowsOk, h1, h2]
    · rw [userRowsOk_of_valid g topN ts mm uid uemb (by simpa using h1) (by simpa using h2),
        map_score_enumRows]
      apply List.Pairwise.map Prod.snd (fun a b h => h)
      exact (sorted_pySortDesc _).sublist (pySlice_sublist _ _)

/-- Length of a non-skipped user's block: the slice length over the valid
candidate count. -/
theorem userRowsOk_length (g : Vec → Vec → ℚ) (topN : Int) (ts : String)
    (mm : List (String × Vec)) (uid : String) (uemb : Vec)
    (h1 : uemb.isEmpty = false) (h2 : (validMedia mm).isEmpty = false) :
    (userRowsOk g topN ts mm uid uemb).length =
      sliceLen topN (validMedia mm).length := by
  rw [userRowsOk_of_valid g topN ts mm uid uemb h1 h2, List.length_map,
    List.enum_length, length_pySlice, length_pySortDesc, List.length_zip]
  simp

/-- Zipping a longer identifier list against a short vector list pairs the
vectors with the identifier prefix, in positional order. -/
theorem map_fst_zip_take (ids : List α) (vs : List β) :
    (ids.zip vs).map Prod.fst = ids.take vs.length := by
  induction ids generalizing vs with
  | nil => simp
  | cons a as ih =>
    cases vs with
    | nil => simp
    | cons v vs' => simp [ih]

/-- Filtering the assembled rows to one user with duplicate-free user
identifiers returns (exactly) that user's block. -/
theorem filter_flatten_blocks (g : Vec → Vec → ℚ) (topN : Int) (ts : String)
    (mm : List (String × Vec)) (u : String) :
    ∀ userMap : List (String × Vec), (userMap.map Prod.fst).Nodup →
      ((userMap.map fun p => userRowsOk g topN ts mm p.1 p.2).flatten).filter
          (fun r => r.user_id == u) =
        (match userMap.find? (fun p => p.1 == u) with
          | some p => userRowsOk g topN ts mm p.1 p.2
          | none => []) := by
  intro userMap hN
  induction userMap with
  | nil => rfl
  | cons q rest ih =>
    obtain ⟨uid, uemb⟩ := q
    have hN' : (rest.map Prod.fst).Nodup := (List.nodup_cons.mp (by simpa using hN)).2
    simp only [List.map_cons, List.flatten_cons, List.filter_append]
    by_cases hq : uid = u
    · subst hq
      have hkeep : (userRowsOk g topN ts mm uid uemb).filter
          (fun r => r.user_id == uid) = userRowsOk g topN ts mm uid uemb := by
        apply List.filter_eq_self.mpr
        intro r hr
        simp [userRowsOk_user_id g topN ts mm uid uemb r hr]
      have hnil : ((rest.map fun p => userRowsOk g topN ts mm p.1 p.2).flatten).filter
          (fun r => r.user_id == uid) = [] := by
        apply List.filter_eq_nil_iff.mpr
        intro r hr
        simp only [List.mem_flatten, List.mem_map] at hr
        obtain ⟨blk, ⟨p, hp, rfl⟩, hrblk⟩ := hr
        have hrid := userRowsOk_user_id g topN ts mm p.1 p.2 r hrblk
        have hne : p.1 ≠ uid := by
          intro hcontra
          have hmem : uid ∈ rest.map Prod.fst :=
            hcontra ▸ List.mem_map_of_mem Prod.fst hp
          exact (List.nodup_cons.mp (by simpa using hN)).1 hmem
        simp [hrid, hne]
      rw [hkeep, hnil, List.append_nil]
      simp [List.find?_cons]
    · have hnil : (userRowsOk g topN ts mm uid uemb).filter
          (fun r => r.user_id == u) = [] := by
        apply List.filter_eq_nil_iff.mpr
        intro r hr
        have hrid := userRowsOk_user_id g topN ts mm uid uemb r hr
        simp [hrid, hq]
      rw [hnil, List.nil_append, ih hN']
      have hbeq : (uid == u) = false := beq_eq_false_iff_ne.mpr hq
      have hfind : List.find? (fun p : String × Vec => p.1 == u) ((uid, uemb) :: rest)
          = List.find? (fun p : String × Vec => p.1 == u) rest := by
        rw [List.find?_cons]
        simp only [hbeq]
      rw [hfind]

/-- The loop body threads the run timestamp, and nothing else, into the rows it
returns, whatever the metric string. -/
theorem userRows_ts_of_ok (cos dist : Vec → Vec → ℚ) (metric : String)
    (topN : Int) (ts : String) (mm : List (String × Vec)) (uid : String)
    (uemb : Vec) (rs : List Row)
    (h : userRows cos dist metric topN ts mm uid uemb = .ok rs) :
    ∀ r ∈ rs, r.processing_timestamp = ts := by
  unfold userRows at h
  by_cases h1 : uemb.isEmpty
  · simp [h1] at h
    subst h
    simp
  · by_cases h2 : (validMedia mm).isEmpty
    · simp [h1, h2] at h
      subst h
      simp
    · simp only [Bool.not_eq_true] at h1 h2
      simp only [h1, h2, Bool.false_eq_true, if_false] at h
      cases hcs : calculate_similarity cos dist uemb ((validMedia mm).map Prod.snd) metric with
      | error e => rw [hcs] at h; cases h
      | ok sims =>
        rw [hcs] at h
        cases h
        intro r hr
        simp only [List.mem_map] at hr
        obtain ⟨p, _, rfl⟩ := hr
        rfl

/-- Changing only the run timestamp changes only the timestamp field of each
emitted row (loop-body level). -/
theorem userRows_strip (cos dist : Vec → Vec → ℚ) (metric : String)
    (topN : Int) (mm : List (String × Vec)) (uid : String) (uemb : Vec)
    (ts ts' : String) :
    (userRows cos dist metric topN ts mm uid uemb).map (List.map Row.stripTs) =
      (userRows cos dist metric topN ts' mm uid uemb).map (List.map Row.stripTs) := by
  unfold userRows
  by_cases h1 : uemb.isEmpty
  · simp [h1]
  · by_cases h2 : (validMedia mm).isEmpty
    · simp [h1, h2]
    · simp only [Bool.not_eq_true] at h1 h2
      simp only [h1, h2, Bool.false_eq_true, if_false]
      cases hcs : calculate_similarity cos dist uemb ((validMedia mm).map Prod.snd) metric with
      | error e => simp [Except.map]
      | ok sims =>
        simp only [Except.map, List.map_map]
        rfl

/-- Changing only the run timestamp changes only the timestamp field of each
assembled row (whole-loop level). -/
theorem assembleRows_strip (cos dist : Vec → Vec → ℚ) (metric : String)
    (topN : Int) (mm : List (String × Vec)) (ts ts' : String) :
    ∀ userMap : List (String × Vec),
      (assembleRows cos dist metric topN ts mm userMap).map (List.map Row.stripTs) =
        (assembleRows cos dist metric topN ts' mm userMap).map (List.map Row.stripTs) := by
  intro userMap
  induction userMap with
  | nil => rfl
  | cons q rest ih =>
    obtain ⟨uid, uemb⟩ := q
    have hu := userRows_strip cos dist metric topN mm uid uemb ts ts'
    cases h1 : userRows cos dist metric topN ts mm uid uemb with
    | error e =>
      cases h2 : userRows cos dist metric topN ts' mm uid uemb with
      | error e' =>
        rw [h1, h2] at hu
        simp only [Except.map] at hu
        cases hu
        simp only [assembleRows, h1, h2]
        rfl
      | ok rs' =>
        rw [h1, h2] at hu
        simp [Except.map] at hu
    | ok rs =>
      cases h2 : userRows cos dist metric topN ts' mm uid uemb with
      | error e' =>
        rw [h1, h2] at hu
        simp [Except.map] at hu
      | ok rs' =>
        rw [h1, h2] at hu
        simp only [Except.map, Except.ok.injEq] at hu
        cases h3 : assembleRows cos dist metric topN ts mm rest with
        | error e =>
          cases h4 : assembleRows cos dist metric topN ts' mm rest with
          | error e2 =>
            rw [h3, h4] at ih
            simp only [Except.map] at ih
            cases ih
            simp only [assembleRows, h1, h2, h3, h4]
            rfl
          | ok rl' =>
            rw [h3, h4] at ih
            simp [Except.map] at ih
        | ok rl =>
          cases h4 : assembleRows cos dist metric topN ts' mm rest with
          | error e2 =>
            rw [h3, h4] at ih
            simp [Except.map] at ih
          | ok rl' =>
            rw [h3, h4] at ih
            simp only [Except.map, Except.ok.injEq] at ih
            simp only [assembleRows, h1, h2, h3, h4]
            show Except.ok ((rs ++ rl).map Row.stripTs)
              = Except.ok ((rs' ++ rl').map Row.stripTs)
            rw [List.map_append, List.map_append, hu, ih]

/-- Unfolding of the loop over a first user. -/
theorem assembleRows_cons (cos dist : Vec → Vec → ℚ) (metric : String)
    (topN : Int) (ts : String) (mm : List (String × Vec)) (uid : String)
    (uemb : Vec) (rest : List (String × Vec)) :
    assembleRows cos dist metric topN ts mm ((uid, uemb) :: rest) =
      match userRows cos dist metric topN ts mm uid uemb with
      | .error e => .error e
      | .ok rs =>
        match assembleRows cos dist metric topN ts mm rest with
        | .error e => .error e
        | .ok rest' => .ok (rs ++ rest') := by
  have hdef : assembleRows cos dist metric topN ts mm ((uid, uemb) :: rest)
      = Except.bind (userRows cos dist metric topN ts mm uid uemb) fun rs =>
          Except.bind (assembleRows cos dist metric topN ts mm rest) fun rest' =>
            .ok (rs ++ rest') := rfl
  rw [hdef]
  cases userRows cos dist metric topN ts mm uid uemb with
  | error e => rfl
  | ok rs =>
    cases assembleRows cos dist metric topN ts mm rest with
    | error e => rfl
    | ok rest' => rfl

/-- A user processed against a media map with no truthy embedding is skipped
(`continue`), whatever the metric string. -/
theorem userRows_of_no_valid (cos dist : Vec → Vec → ℚ) (metric : String)
    (topN : Int) (ts : String) (mm : List (String × Vec)) (uid : String)
    (uemb : Vec) (hvm : validMedia mm = []) :
    userRows cos dist metric topN ts mm uid uemb = .ok [] := by
  unfold userRows
  by_cases h1 : uemb.isEmpty
  · simp [h1]
  · simp [h1, hvm]

/-- With no valid media candidate at all, the loop emits zero rows and never
raises. -/
theorem assembleRows_of_no_valid (cos dist : Vec → Vec → ℚ) (metric : String)
    (topN : Int) (ts : String) (mm : List (String × Vec))
    (hvm : validMedia mm = []) :
    ∀ um : List (String × Vec),
      assembleRows cos dist metric topN ts mm um = .ok [] := by
  intro um
  induction um with
  | nil => rfl
  | cons q rest ih =>
    obtain ⟨uid, uemb⟩ := q
    rw [assembleRows_cons,
      userRows_of_no_valid cos dist metric topN ts mm uid uemb hvm, ih]
    rfl

/-- Every row assembled by a non-raising loop carries the run timestamp. -/
theorem assembleRows_ts_of_ok (cos dist : Vec → Vec → ℚ) (metric : String)
    (topN : Int) (ts : String) (mm : List (String × Vec)) :
    ∀ (um : List (String × Vec)) (rows : List Row),
      assembleRows cos dist metric topN ts mm um = .ok rows →
      ∀ r ∈ rows, r.processing_timestamp = ts := by
  intro um
  induction um with
  | nil =>
    intro rows h r hr
    cases h
    simp at hr
  | cons q rest ih =>
    obtain ⟨uid, uemb⟩ := q
    intro rows h r hr
    rw [assembleRows_cons] at h
    cases h1 : userRows cos dist metric topN ts mm uid uemb with
    | error e =>
      rw [h1] at h
      simp at h
    | ok rs =>
      rw [h1] at h
      cases h2 : assembleRows cos dist metric topN ts mm rest with
      | error e =>
        rw [h2] at h
        simp at h
      | ok rest' =>
        rw [h2] at h
        cases h
        rcases List.mem_append.mp hr with hl | hrr
        · exact userRows_ts_of_ok cos dist metric topN ts mm uid uemb rs h1 r hl
        · exact ih rest' h2 r hrr

/-- The constructor form of 1/10 is 1/10. -/
theorem r01_eq : r01 = 1 / 10 := by
  rw [show r01 = (⟨1, 10, by decide, by norm_num⟩ : ℚ) from rfl,
    Rat.mk'_eq_divInt, Rat.divInt_eq_div]
  norm_num

/-- The constructor form of 9/10 is 9/10. -/
theorem r09_eq : r09 = 9 / 10 := by
  rw [show r09 = (⟨9, 10, by decide, by norm_num⟩ : ℚ) from rfl,
    Rat.mk'_eq_divInt, Rat.divInt_eq_div]
  norm_num

/-- The constructor form of 1/2 is 1/2. -/
theorem r05_eq : r05 = 1 / 2 := by
  rw [show r05 = (⟨1, 2, by decide, by norm_num⟩ : ℚ) from rfl,
    Rat.mk'_eq_divInt, Rat.divInt_eq_div]
  norm_num

/-! ## Claim theorems -/

/-- C4: for every candidate id list, same-length score list and n > 0, the
Top-N ranker (the sort/slice/enumerate steps of the per-user loop) returns the
candidates stably sorted by score descending — scores non-increasing, per-score
sublists exactly as in the input, a permutation of the input — truncated to the
first n, with each entry assigned its 1-based position as rank. -/
theorem c4_top_n_ranker (ids : List String) (scores : List ℚ) (n : Int)
    (hlen : ids.length = scores.length) (hn : 0 < n) :
    topNRank ids scores n
        = ((pySortDesc (ids.zip scores)).take n.toNat).enum.map
            (fun p => (p.2.1, p.1 + 1, p.2.2)) ∧
      (pySortDesc (ids.zip scores)).Pairwise (fun a b => b.2 ≤ a.2) ∧
      (∀ s : ℚ, (pySortDesc (ids.zip scores)).filter (fun p => decide (p.2 = s))
          = (ids.zip scores).filter (fun p => decide (p.2 = s))) ∧
      (pySortDesc (ids.zip scores)).Perm (ids.zip scores) ∧
      (topNRank ids scores n).length = min n.toNat ids.length ∧
      (∀ i, ∀ h : i < (topNRank ids scores n).length,
          ((topNRank ids scores n).get ⟨i, h⟩).2.1 = i + 1) := by
  refine ⟨?_, sorted_pySortDesc _, fun s => filter_pySortDesc s _,
    perm_pySortDesc _, ?_, ?_⟩
  · rw [topNRank, pySlice_of_nonneg _ hn.le]
  · rw [topNRank, List.length_map, List.enum_length, length_pySlice,
      length_pySortDesc, List.length_zip, hlen, min_self]
    simp [sliceLen, hn.le]
  · intro i h
    simp [topNRank, List.get_eq_getElem, List.getElem_map, List.getElem_enum]

/-- Witness for C4 at the spec's own example: ids [a,b,c], scores
[1/10, 9/10, 1/2], n = 2 gives [(b,1,9/10), (c,2,1/2)]. -/
theorem c4_witness :
    ((["a", "b", "c"] : List String).length = ([r01, r09, r05] : List ℚ).length
        ∧ (0 : Int) < 2)
      ∧ topNRank ["a", "b", "c"] [r01, r09, r05] 2 = [("b", 1, r09), ("c", 2, r05)] := by
  refine ⟨⟨rfl, by decide⟩, ?_⟩
  rw [(c4_top_n_ranker ["a", "b", "c"] [r01, r09, r05] 2 rfl (by decide)).1]
  decide

/-- C5 as stated is false: with n = -1 (a negative bound) the ranker is not
empty — Python slicing keeps all but the last candidate. -/
theorem c5_counterexample :
    topNRank ["a", "b"] [1, 2] (-1) = [("b", 1, 2)]
      ∧ topNRank ["a", "b"] [1, 2] (-1) ≠ ([] : List (String × Nat × ℚ)) := by
  constructor
  · decide
  · decide

/-- C5 amended: n = 0 yields the empty sequence, but a negative n keeps all but
the last min(-n, count) candidates (Python slice semantics), so only n = 0 of
the n ≤ 0 cases is empty; for n ≥ candidate count all candidates are returned
ranked, and the output length is sliceLen n count ≤ count. -/
theorem c5_amended (ids : List String) (scores : List ℚ) (n : Int)
    (hlen : ids.length = scores.length) :
    (n = 0 → topNRank ids scores n = []) ∧
      (topNRank ids scores n).length = sliceLen n ids.length ∧
      (topNRank ids scores n).length ≤ ids.length ∧
      ((ids.length : Int) ≤ n →
        topNRank ids scores n
          = (pySortDesc (ids.zip scores)).enum.map fun p => (p.2.1, p.1 + 1, p.2.2)) := by
  have hl : (topNRank ids scores n).length = sliceLen n ids.length := by
    rw [topNRank, List.length_map, List.enum_length, length_pySlice,
      length_pySortDesc, List.length_zip, hlen, min_self]
  refine ⟨?_, hl, ?_, ?_⟩
  · rintro rfl
    rw [topNRank]
    simp [pySlice]
  · rw [hl]
    exact sliceLen_le n ids.length
  · intro hge
    have hn0 : 0 ≤ n := le_trans (Int.natCast_nonneg _) hge
    rw [topNRank, pySlice_of_nonneg _ hn0]
    have hle : (pySortDesc (ids.zip scores)).length ≤ n.toNat := by
      rw [length_pySortDesc, List.length_zip, hlen, min_self]
      omega
    rw [List.take_of_length_le hle]

/-- Witness for C5 at the spec's tie example: two candidates with equal scores
and n = 5 return both, in input order, ranks 1 and 2. -/
theorem c5_witness :
    (["x", "y"] : List String).length = ([5, 5] : List ℚ).length
      ∧ (topNRank ["x", "y"] [5, 5] 5).length = sliceLen 5 2
      ∧ topNRank ["x", "y"] [5, 5] 5 = [("x", 1, 5), ("y", 2, 5)] := by
  refine ⟨rfl, ?_, by decide⟩
  exact (c5_amended ["x", "y"] [5, 5] 5 rfl).2.1

/-- C2 as stated is false: with `delete_table` failing on the recommendations
table the run does not abort and the write is still attempted — the error is
only logged, one row is written, and the run completes normally. -/
theorem c2_counterexample :
    runBatch true (.error "boom") false (.ok ()) [("u1", "ut")] [("m1", "t1")]
        callOkW callOkW 1 1 "cosine" scoreW scoreW 1 "TS" (.ok [])
      = ⟨some "boom", none, [⟨"u1", "m1", 1, 2, "TS"⟩], .wrote 1, true, none⟩ := by
  decide

/-- C2 amended: `delete_table` and `create_table` catch and log every client
error instead of raising, so the run's rows, write outcome, completion and
crash status are completely independent of delete/create failures; the write
is attempted regardless. -/
theorem c2_amended (e₁ e₂ : String) (recE recE' : Bool)
    (d c : Except String Unit) (users media : List (String × String))
    (callU callM : Nat → Nat → List String → Option (List Vec))
    (maxRetries batchSize : Nat) (metric : String) (cos dist : Vec → Vec → ℚ)
    (topN : Int) (ts : String) (ins : Except String (List String)) :
    (runBatch true (.error e₁) false (.error e₂) users media callU callM
          maxRetries batchSize metric cos dist topN ts ins).rows
        = (runBatch recE d recE' c users media callU callM
          maxRetries batchSize metric cos dist topN ts ins).rows
      ∧ (runBatch true (.error e₁) false (.error e₂) users media callU callM
          maxRetries batchSize metric cos dist topN ts ins).writeOutcome
        = (runBatch recE d recE' c users media callU callM
          maxRetries batchSize metric cos dist topN ts ins).writeOutcome
      ∧ (runBatch true (.error e₁) false (.error e₂) users media callU callM
          maxRetries batchSize metric cos dist topN ts ins).completed
        = (runBatch recE d recE' c users media callU callM
          maxRetries batchSize metric cos dist topN ts ins).completed
      ∧ (runBatch true (.error e₁) false (.error e₂) users media callU callM
          maxRetries batchSize metric cos dist topN ts ins).crashed
        = (runBatch recE d recE' c users media callU callM
          maxRetries batchSize metric cos dist topN ts ins).crashed
      ∧ (runBatch true (.error e₁) false (.error e₂) users media callU callM
          maxRetries batchSize metric cos dist topN ts ins).deleteError = some e₁
      ∧ (runBatch true (.error e₁) false (.error e₂) users media callU callM
          maxRetries batchSize metric cos dist topN ts ins).createError = some e₂ := by
  simp only [runBatch]
  cases h : assembleRows cos dist metric topN ts
      ((media.map Prod.fst).zip
        (generate_embeddings callM maxRetries batchSize (media.map Prod.snd)))
      ((users.map Prod.fst).zip
        (generate_embeddings callU maxRetries batchSize (users.map Prod.snd))) with
  | error e => simp [delete_table, create_table]
  | ok rows => simp [delete_table, create_table]

/-- C7 as stated is false: with the only media item's embedding failed (empty
valid candidate pool) the run completes normally with zero rows — the sink just
reports "no data", with no abort and no failure signal distinct from the
per-user no-rows case. -/
theorem c7_counterexample :
    runBatch true (.ok ()) false (.ok ()) [("u1", "ut")] [("m1", "t1")]
        callOkW callAllFailW 1 1 "cosine" scoreW scoreW 1 "TS" (.ok [])
      = ⟨none, none, [], .noData, true, none⟩ := by
  decide

/-- C7 amended: when no media item has a truthy embedding, every user hits the
`continue`, zero rows are assembled, `write_to_bigquery` reports its no-data
outcome and the run completes normally — there is no distinct abort. -/
theorem c7_amended (recE recE' : Bool) (d c : Except String Unit)
    (users media : List (String × String))
    (callU callM : Nat → Nat → List String → Option (List Vec))
    (maxRetries batchSize : Nat) (metric : String) (cos dist : Vec → Vec → ℚ)
    (topN : Int) (ts : String) (ins : Except String (List String))
    (hvm : validMedia ((media.map Prod.fst).zip
        (generate_embeddings callM maxRetries batchSize (media.map Prod.snd))) = []) :
    (runBatch recE d recE' c users media callU callM maxRetries batchSize
        metric cos dist topN ts ins).rows = []
      ∧ (runBatch recE d recE' c users media callU callM maxRetries batchSize
        metric cos dist topN ts ins).completed = true
      ∧ (runBatch recE d recE' c users media callU callM maxRetries batchSize
        metric cos dist topN ts ins).writeOutcome = .noData
      ∧ (runBatch recE d recE' c users media callU callM maxRetries batchSize
        metric cos dist topN ts ins).crashed = none := by
  simp only [runBatch]
  rw [assembleRows_of_no_valid cos dist metric topN ts _ hvm]
  simp [write_to_bigquery]

/-- Witness for C7 amended: the one-user one-media run whose media embedding
call always fails. -/
theorem c7_witness :
    validMedia ((([("m1", "t1")] : List (String × String)).map Prod.fst).zip
        (generate_embeddings callAllFailW 1 1
          (([("m1", "t1")] : List (String × String)).map Prod.snd))) = []
      ∧ (runBatch true (.ok ()) false (.ok ()) [("u1", "ut")] [("m1", "t1")]
          callOkW callAllFailW 1 1 "cosine" scoreW scoreW 1 "TS" (.ok [])).rows = []
      ∧ (runBatch true (.ok ()) false (.ok ()) [("u1", "ut")] [("m1", "t1")]
          callOkW callAllFailW 1 1 "cosine" scoreW scoreW 1 "TS" (.ok [])).writeOutcome
        = .noData := by
  have h := c7_amended true false (.ok ()) (.ok ()) [("u1", "ut")] [("m1", "t1")]
    callOkW callAllFailW 1 1 "cosine" scoreW scoreW 1 "TS" (.ok []) (by decide)
  exact ⟨by decide, h.1, h.2.2.1⟩

/-- C8: one timestamp value is threaded into the whole run, and every
Recommendation Row of the batch carries exactly that value. -/
theorem c8_shared_timestamp (recE recE' : Bool) (d c : Except String Unit)
    (users media : List (String × String))
    (callU callM : Nat → Nat → List String → Option (List Vec))
    (maxRetries batchSize : Nat) (metric : String) (cos dist : Vec → Vec → ℚ)
    (topN : Int) (ts : String) (ins : Except String (List String)) :
    ∀ r ∈ (runBatch recE d recE' c users media callU callM maxRetries batchSize
        metric cos dist topN ts ins).rows, r.processing_timestamp = ts := by
  simp only [runBatch]
  cases h : assembleRows cos dist metric topN ts
      ((media.map Prod.fst).zip
        (generate_embeddings callM maxRetries batchSize (media.map Prod.snd)))
      ((users.map Prod.fst).zip
        (generate_embeddings callU maxRetries batchSize (users.map Prod.snd))) with
  | error e => simp
  | ok rows =>
    intro r hr
    exact assembleRows_ts_of_ok cos dist metric topN ts _ _ rows h r hr

/-- Witness for C8: the single emitted row of a small run carries the run's
timestamp. -/
theorem c8_witness :
    (⟨"u1", "m1", 1, 2, "TS"⟩ : Row) ∈ (runBatch true (.ok ()) false (.ok ())
        [("u1", "ut")] [("m1", "t1")] callOkW callOkW 1 1 "cosine" scoreW scoreW
        1 "TS" (.ok [])).rows
      ∧ (⟨"u1", "m1", 1, 2, "TS"⟩ : Row).processing_timestamp = "TS" := by
  refine ⟨by decide, ?_⟩
  exact c8_shared_timestamp true false (.ok ()) (.ok ()) [("u1", "ut")]
    [("m1", "t1")] callOkW callOkW 1 1 "cosine" scoreW scoreW 1 "TS" (.ok [])
    ⟨"u1", "m1", 1, 2, "TS"⟩ (by decide)

/-- C9: two runs differing only in the queried timestamp produce identical
row sequences in every field except processing_timestamp, and the same
completion status (the ranking and assembly logic is deterministic in the
remaining inputs). -/
theorem c9_two_run_determinism (recE recE' : Bool) (d c : Except String Unit)
    (users media : List (String × String))
    (callU callM : Nat → Nat → List String → Option (List Vec))
    (maxRetries batchSize : Nat) (metric : String) (cos dist : Vec → Vec → ℚ)
    (topN : Int) (ts₁ ts₂ : String) (ins : Except String (List String)) :
    ((runBatch recE d recE' c users media callU callM maxRetries batchSize
          metric cos dist topN ts₁ ins).rows).map Row.stripTs
        = ((runBatch recE d recE' c users media callU callM maxRetries batchSize
          metric cos dist topN ts₂ ins).rows).map Row.stripTs
      ∧ (runBatch recE d recE' c users media callU callM maxRetries batchSize
          metric cos dist topN ts₁ ins).completed
        = (runBatch recE d recE' c users media callU callM maxRetries batchSize
          metric cos dist topN ts₂ ins).completed := by
  have h := assembleRows_strip cos dist metric topN
    ((media.map Prod.fst).zip
      (generate_embeddings callM maxRetries batchSize (media.map Prod.snd)))
    ts₁ ts₂
    ((users.map Prod.fst).zip
      (generate_embeddings callU maxRetries batchSize (users.map Prod.snd)))
  simp only [runBatch]
  cases h1 : assembleRows cos dist metric topN ts₁
      ((media.map Prod.fst).zip
        (generate_embeddings callM maxRetries batchSize (media.map Prod.snd)))
      ((users.map Prod.fst).zip
        (generate_embeddings callU maxRetries batchSize (users.map Prod.snd))) with
  | error e =>
    cases h2 : assembleRows cos dist metric topN ts₂
        ((media.map Prod.fst).zip
          (generate_embeddings callM maxRetries batchSize (media.map Prod.snd)))
        ((users.map Prod.fst).zip
          (generate_embeddings callU maxRetries batchSize (users.map Prod.snd))) with
    | error e' => simp
    | ok r2 =>
      rw [h1, h2] at h
      simp [Except.map] at h
  | ok r1 =>
    cases h2 : assembleRows cos dist metric topN ts₂
        ((media.map Prod.fst).zip
          (generate_embeddings callM maxRetries batchSize (media.map Prod.snd)))
        ((users.map Prod.fst).zip
          (generate_embeddings callU maxRetries batchSize (users.map Prod.snd))) with
    | error e' =>
      rw [h1, h2] at h
      simp [Except.map] at h
    | ok r2 =>
      rw [h1, h2] at h
      simp only [Except.map, Except.ok.injEq] at h
      simp [h]

/-! ## Helper lemmas: the retry loop -/

/-- The retry loop starting at attempt `a` with `r` attempts allowed fails
exactly when attempts `a, a+1, ..., a+r-1` all fail. -/
theorem retryCall_none_iff (call : Nat → Option (List Vec)) :
    ∀ (r a : Nat), retryCall call a r = none ↔ ∀ k < r, call (a + k) = none := by
  intro r
  induction r with
  | zero => simp [retryCall]
  | succ r ih =>
    intro a
    cases hc : call a with
    | some vs =>
      simp only [retryCall, hc]
      constructor
      · intro h
        cases h
      · intro h
        have := h 0 (Nat.succ_pos r)
        rw [Nat.add_zero] at this
        rw [hc] at this
        cases this
    | none =>
      simp only [retryCall, hc, ih (a + 1)]
      constructor
      · intro h k hk
        cases k with
        | zero => simpa using hc
        | succ j =>
          have := h j (Nat.lt_of_succ_lt_succ hk)
          simpa [Nat.add_assoc, Nat.add_comm 1 j] using this
      · intro h k hk
        have := h (k + 1) (Nat.succ_lt_succ hk)
        simpa [Nat.add_assoc, Nat.add_comm 1 k] using this

/-- The per-chunk retry loop gives up exactly when all of the first
`maxRetries` attempts (the initial attempt included) fail. -/
theorem retryChunk_none_iff (call : Nat → Option (List Vec)) (m : Nat) :
    retryChunk call m = none ↔ ∀ k < m, call k = none := by
  rw [retryChunk, retryCall_none_iff]
  simp

/-- The loop performs at most `r` remote calls when `r` attempts are allowed. -/
theorem attemptsUsed_le (call : Nat → Option (List Vec)) :
    ∀ (r a : Nat), attemptsUsed call a r ≤ r := by
  intro r
  induction r with
  | zero => intro a; simp [attemptsUsed]
  | succ r ih =>
    intro a
    cases hc : call a with
    | some vs => simp [attemptsUsed, hc]
    | none =>
      simp only [attemptsUsed, hc]
      have := ih (a + 1)
      omega

/-! ## C6 -/

/-- C6 as stated is false: with `max_retries = 2` the loop makes only two
attempts in total, not one initial attempt plus up to two retries — a call
succeeding on attempt index 2 (the third attempt, which the claim says is
made) is abandoned, while `max_retries = 3` would find it. -/
theorem c6_counterexample :
    retryChunk callThirdTimeW 2 = none
      ∧ callThirdTimeW 2 = some [[1]]
      ∧ retryChunk callThirdTimeW 3 = some [[1]] := by
  refine ⟨by decide, by decide, by decide⟩

/-- C6 amended: each chunk's remote call is attempted at most `max_retries`
times in total (the initial attempt counts toward `max_retries`, so at most
`max_retries - 1` retries follow it), and the loop gives up exactly when the
first `max_retries` attempts all fail; a chunk that exhausts its attempts
contributes no vectors — the result is insensitive to what its calls return —
while every other chunk is processed exactly as before. -/
theorem c6_amended :
    (∀ (call : Nat → Option (List Vec)) (m : Nat),
        (retryChunk call m = none ↔ ∀ k < m, call k = none)
          ∧ attemptsUsed call 0 m ≤ m)
      ∧ ∀ (g₁ g₂ : Nat → Nat → List String → Option (List Vec))
          (m bs : Nat) (texts : List String) (ci : Nat),
          (∀ cj, cj ≠ ci → ∀ a ch, g₁ cj a ch = g₂ cj a ch) →
          retryChunk (fun a => g₁ ci a ((chunkList bs texts).getD ci [])) m = none →
          retryChunk (fun a => g₂ ci a ((chunkList bs texts).getD ci [])) m = none →
          generate_embeddings g₁ m bs texts = generate_embeddings g₂ m bs texts := by
  constructor
  · intro call m
    exact ⟨retryChunk_none_iff call m, attemptsUsed_le call m 0⟩
  · intro g₁ g₂ m bs texts ci hagree h₁ h₂
    unfold generate_embeddings
    congr 1
    apply List.map_congr_left
    intro p hp
    by_cases hci : p.1 = ci
    · subst hci
      have hq := List.mem_enum_iff_getElem?.mp hp
      have hgd : (chunkList bs texts).getD p.1 [] = p.2 := by
        simp [List.getD_eq_getElem?_getD, hq]
      rw [hgd] at h₁ h₂
      rw [h₁, h₂]
    · have : (fun k => g₁ p.1 k p.2) = fun k => g₂ p.1 k p.2 := by
        funext k
        exact hagree p.1 hci k p.2
      rw [this]

/-! ## Helper lemmas: chunk structure -/

/-- No texts, no chunks. -/
theorem chunkList_nil (bs : Nat) : chunkList bs ([] : List α) = [] := by
  cases bs with
  | zero => simp [chunkList]
  | succ n =>
    unfold chunkList
    simp [Nat.div_eq_of_lt (Nat.lt_succ_self n)]

/-- The chunk loop peels off the first `bs` texts and recurses on the rest. -/
theorem chunkList_cons (bs : Nat) (hbs : 0 < bs) (l : List α) (hl : l ≠ []) :
    chunkList bs l = l.take bs :: chunkList bs (l.drop bs) := by
  have hn : 0 < l.length := List.length_pos.mpr hl
  have hdiv : (l.length + bs - 1) / bs = ((l.length - bs) + bs - 1) / bs + 1 := by
    rcases Nat.lt_or_ge bs l.length with h | h
    · have h1 : l.length + bs - 1 = (l.length - 1) + bs := by omega
      have h2 : l.length - bs + bs - 1 = l.length - 1 := by omega
      rw [h1, Nat.add_div_right _ hbs, h2]
    · have h1 : l.length + bs - 1 = (l.length - 1) + bs := by omega
      have h2 : (l.length - 1) / bs = 0 := Nat.div_eq_of_lt (by omega)
      have h3 : l.length - bs = 0 := by omega
      have h4 : (0 + bs - 1) / bs = 0 := Nat.div_eq_of_lt (by omega)
      rw [h1, Nat.add_div_right _ hbs, h2, h3, h4]
  unfold chunkList
  rw [List.length_drop, hdiv, List.range_succ_eq_map]
  rw [List.map_cons, List.map_map]
  congr 1
  · simp
  · apply List.map_congr_left
    intro i _
    simp only [Function.comp]
    rw [List.drop_drop]
    congr 2
    rw [Nat.succ_mul]
    omega

/-- The chunks concatenate back to the original list. -/
theorem chunkList_flatten (bs : Nat) (hbs : 0 < bs) :
    ∀ l : List α, (chunkList bs l).flatten = l
  | [] => by rw [chunkList_nil]; rfl
  | x :: xs => by
    rw [chunkList_cons bs hbs _ (by simp), List.flatten_cons,
      chunkList_flatten bs hbs ((x :: xs).drop bs)]
    exact List.take_append_drop bs (x :: xs)
termination_by l => l.length
decreasing_by simp; omega

/-- Every chunk of a positive batch size is non-empty. -/
theorem chunkList_ne_nil (bs : Nat) (hbs : 0 < bs) :
    ∀ l : List α, ∀ c ∈ chunkList bs l, c ≠ []
  | [] => by rw [chunkList_nil]; intro c hc; cases hc
  | x :: xs => by
    rw [chunkList_cons bs hbs _ (by simp)]
    intro c hc
    rcases List.mem_cons.mp hc with rfl | hc'
    · simp [List.take_eq_nil_iff]
      omega
    · exact chunkList_ne_nil bs hbs ((x :: xs).drop bs) c hc'
termination_by l => l.length
decreasing_by simp; omega

/-- The embedding stage never returns more vectors than there were texts. -/
theorem flatVecs_length_le (embedF : String → Vec) :
    ∀ L : List (List String × Bool),
      (flatVecs embedF L).length ≤ (flatTexts L).length := by
  intro L
  induction L with
  | nil => simp [flatVecs, flatTexts]
  | cons c L' ih =>
    have hstep : (flatVecs embedF (c :: L')).length
        = (if c.2 then ([] : List Vec) else c.1.map embedF).length
          + (flatVecs embedF L').length := by
      simp [flatVecs]
    have hstept : (flatTexts (c :: L')).length = c.1.length + (flatTexts L').length := by
      simp [flatTexts]
    have hle : (if c.2 then ([] : List Vec) else c.1.map embedF).length ≤ c.1.length := by
      cases hc : c.2 <;> simp
    rw [hstep, hstept]
    omega

/-- If some chunk succeeded, the first returned vector is the embedding of a
text at some position of the input. -/
theorem flatVecs_head (embedF : String → Vec) :
    ∀ L : List (List String × Bool), (∀ p ∈ L, p.1 ≠ []) →
      (∃ p ∈ L, p.2 = false) →
      ∃ (q : Nat) (tq : String), (flatTexts L)[q]? = some tq
        ∧ (flatVecs embedF L)[0]? = some (embedF tq) := by
  intro L
  induction L with
  | nil =>
    intro _ hs
    obtain ⟨p, hp, _⟩ := hs
    cases hp
  | cons c L' ih =>
    intro hne hs
    cases hc : c.2 with
    | false =>
      obtain ⟨t₀, ts, hct⟩ : ∃ t₀ ts, c.1 = t₀ :: ts := by
        cases hcl : c.1 with
        | nil => exact absurd hcl (hne c (List.mem_cons_self c L'))
        | cons a as => exact ⟨a, as, rfl⟩
      refine ⟨0, t₀, ?_, ?_⟩
      · simp [flatTexts, hct]
      · simp [flatVecs, hc, hct]
    | true =>
      obtain ⟨p, hp, hpf⟩ := hs
      have hpL' : p ∈ L' := by
        rcases List.mem_cons.mp hp with rfl | h
        · rw [hc] at hpf
          cases hpf
        · exact h
      obtain ⟨q', tq, hT, hV⟩ := ih (fun p hp => hne p (List.mem_cons_of_mem c hp))
        ⟨p, hpL', hpf⟩
      refine ⟨c.1.length + q', tq, ?_, ?_⟩
      · simp only [flatTexts, List.map_cons, List.flatten_cons]
        rw [List.getElem?_append_right (by omega)]
        simpa [flatTexts] using hT
      · simp only [flatVecs, List.map_cons, List.flatten_cons, hc]
        simpa [flatVecs] using hV

/-- If a chunk fails before some later chunk succeeds, one returned vector is
the embedding of a strictly later text: the id ↔ vector correspondence is
shifted. -/
theorem flatVecs_misalign (embedF : String → Vec) :
    ∀ (L : List (List String × Bool)) (i j : Nat), (∀ p ∈ L, p.1 ≠ []) →
      i < j →
      (∃ ci, L[i]? = some ci ∧ ci.2 = true) →
      (∃ cj, L[j]? = some cj ∧ cj.2 = false) →
      ∃ (p q : Nat) (tq : String), p < q ∧ (flatTexts L)[q]? = some tq
        ∧ (flatVecs embedF L)[p]? = some (embedF tq) := by
  intro L
  induction L with
  | nil =>
    intro i j _ _ hi _
    obtain ⟨ci, hci, _⟩ := hi
    simp at hci
  | cons c L' ih =>
    intro i j hne hij hi hj
    obtain ⟨j', rfl⟩ : ∃ j', j = j' + 1 := ⟨j - 1, by omega⟩
    obtain ⟨cj, hcj, hcjf⟩ := hj
    rw [List.getElem?_cons_succ] at hcj
    cases i with
    | zero =>
      obtain ⟨ci, hci, hcif⟩ := hi
      rw [List.getElem?_cons_zero] at hci
      cases hci
      have hcjm : cj ∈ L' := List.getElem?_mem hcj
      obtain ⟨q', tq, hT, hV⟩ := flatVecs_head embedF L'
        (fun p hp => hne p (List.mem_cons_of_mem c hp)) ⟨cj, hcjm, hcjf⟩
      have hcne : c.1 ≠ [] := hne c (List.mem_cons_self c L')
      refine ⟨0, c.1.length + q', tq, by
          have : 0 < c.1.length := List.length_pos.mpr hcne
          omega, ?_, ?_⟩
      · simp only [flatTexts, List.map_cons, List.flatten_cons]
        rw [List.getElem?_append_right (by omega)]
        simpa [flatTexts] using hT
      · simp only [flatVecs, List.map_cons, List.flatten_cons, hcif]
        simpa [flatVecs] using hV
    | succ i' =>
      obtain ⟨ci, hci, hcif⟩ := hi
      rw [List.getElem?_cons_succ] at hci
      obtain ⟨p', q', tq, hpq, hT, hV⟩ := ih i' j'
        (fun p hp => hne p (List.mem_cons_of_mem c hp)) (by omega)
        ⟨ci, hci, hcif⟩ ⟨cj, hcj, hcjf⟩
      have hclen : (if c.2 then ([] : List Vec) else c.1.map embedF).length ≤ c.1.length := by
        cases hc : c.2 <;> simp
      refine ⟨(if c.2 then ([] : List Vec) else c.1.map embedF).length + p',
        c.1.length + q', tq, by omega, ?_, ?_⟩
      · simp only [flatTexts, List.map_cons, List.flatten_cons]
        rw [List.getElem?_append_right (by omega)]
        simpa [flatTexts] using hT
      · simp only [flatVecs, List.map_cons, List.flatten_cons]
        rw [List.getElem?_append_right (by omega)]
        simpa [flatVecs] using hV

/-- When every chunk call either fails outright or returns one (non-empty)
embedding per text, the embedding stage computes exactly the tagged-chunk
vectors. -/
theorem generate_embeddings_eq_flatVecs
    (call : Nat → Nat → List String → Option (List Vec)) (m bs : Nat)
    (texts : List String) (embedF : String → Vec)
    (hne : ∀ t, embedF t ≠ ([] : Vec))
    (hstruct : ∀ p ∈ (chunkList bs texts).enum,
        retryChunk (fun k => call p.1 k p.2) m = none
          ∨ retryChunk (fun k => call p.1 k p.2) m = some (p.2.map embedF)) :
    generate_embeddings call m bs texts
      = flatVecs embedF ((chunkList bs texts).enum.map
          fun p => (p.2, decide (retryChunk (fun k => call p.1 k p.2) m = none))) := by
  unfold generate_embeddings flatVecs
  rw [List.map_map]
  congr 1
  apply List.map_congr_left
  intro p hp
  rcases hstruct p hp with h | h
  · simp [h]
  · have hfil : (p.2.map embedF).filter (fun v => !v.isEmpty) = p.2.map embedF := by
      apply List.filter_eq_self.mpr
      intro v hv
      obtain ⟨t, _, rfl⟩ := List.mem_map.mp hv
      simpa using hne t
    simp [h, hfil]

/-- The tagged chunks of a text list carry exactly the original texts. -/
theorem flatTexts_of_chunks (bs : Nat) (hbs : 0 < bs) (texts : List String)
    (f : Nat × List String → Bool) :
    flatTexts ((chunkList bs texts).enum.map fun p => (p.2, f p)) = texts := by
  unfold flatTexts
  rw [List.map_map]
  have h : (Prod.fst ∘ fun p : Nat × List String => (p.2, f p)) = Prod.snd := rfl
  rw [h, List.enum_map_snd, chunkList_flatten bs hbs]

/-! ## C10, C1, C6 witness -/

/-- C10 as stated is false in one corner: when the chunk after the failed
non-final chunk also fails, the map is empty and no identifier is associated
with any embedding at all, so the claimed misassociation need not exist.
Here both of the two one-text chunks fail: chunk 0 is non-final and failed,
yet `dict(zip(ids, vectors))` is empty. -/
theorem c10_counterexample :
    List.zip ["m1", "m2"] (generate_embeddings callAllFailW 1 1 ["t1", "t2"])
        = ([] : List (String × Vec))
      ∧ chunkList 1 ["t1", "t2"] = [["t1"], ["t2"]]
      ∧ retryChunk (fun k => callAllFailW 0 k ["t1"]) 1 = none
      ∧ generate_embeddings callAllFailW 1 1 ["t1", "t2"] = [] := by
  exact ⟨by decide, by decide, by decide, by decide⟩

/-- C10 amended: `dict(zip(ids, vectors))` always pairs the returned vectors
with the *first* identifiers positionally and silently drops the trailing
identifiers; and whenever a chunk exhausts its retries while some *later*
chunk succeeds, there is an identifier paired with the embedding of a
strictly different entity's text. -/
theorem c10_amended (ids texts : List String) (bs m : Nat)
    (call : Nat → Nat → List String → Option (List Vec)) (embedF : String → Vec)
    (hbs : 0 < bs) (hlen : ids.length = texts.length)
    (hne : ∀ t, embedF t ≠ ([] : Vec))
    (hstruct : ∀ p ∈ (chunkList bs texts).enum,
        retryChunk (fun k => call p.1 k p.2) m = none
          ∨ retryChunk (fun k => call p.1 k p.2) m = some (p.2.map embedF))
    (j t : Nat) (hjt : j < t) (ht : t < (chunkList bs texts).length)
    (hjfail : retryChunk (fun k => call j k ((chunkList bs texts).getD j [])) m = none)
    (htsucc : retryChunk (fun k => call t k ((chunkList bs texts).getD t [])) m ≠ none) :
    (ids.zip (generate_embeddings call m bs texts)).map Prod.fst
        = ids.take (generate_embeddings call m bs texts).length
      ∧ ∃ (p q : Nat) (a tq : String), p ≠ q
          ∧ ids[p]? = some a ∧ texts[q]? = some tq
          ∧ (ids.zip (generate_embeddings call m bs texts))[p]? = some (a, embedF tq) := by
  refine ⟨map_fst_zip_take ids _, ?_⟩
  have hveq : generate_embeddings call m bs texts
      = flatVecs embedF ((chunkList bs texts).enum.map
          fun p => (p.2, decide (retryChunk (fun k => call p.1 k p.2) m = none))) :=
    generate_embeddings_eq_flatVecs call m bs texts embedF hne hstruct
  set chunks := chunkList bs texts with hchunks
  set L := chunks.enum.map
    (fun p => (p.2, decide (retryChunk (fun k => call p.1 k p.2) m = none))) with hL
  have hteq : flatTexts L = texts := flatTexts_of_chunks bs hbs texts _
  have hj_lt : j < chunks.length := lt_trans hjt ht
  obtain ⟨cj, hcj⟩ : ∃ c, chunks[j]? = some c := by
    rw [List.getElem?_eq_getElem hj_lt]
    exact ⟨_, rfl⟩
  obtain ⟨ct, hct⟩ : ∃ c, chunks[t]? = some c := by
    rw [List.getElem?_eq_getElem ht]
    exact ⟨_, rfl⟩
  have hgdj : chunks.getD j [] = cj := by
    simp [List.getD_eq_getElem?_getD, hcj]
  have hgdt : chunks.getD t [] = ct := by
    simp [List.getD_eq_getElem?_getD, hct]
  rw [hgdj] at hjfail
  rw [hgdt] at htsucc
  have hLj : L[j]? = some (cj, decide (retryChunk (fun k => call j k cj) m = none)) := by
    rw [hL, List.getElem?_map, List.getElem?_enum, hcj]
    rfl
  have hLt : L[t]? = some (ct, decide (retryChunk (fun k => call t k ct) m = none)) := by
    rw [hL, List.getElem?_map, List.getElem?_enum, hct]
    rfl
  have hnec : ∀ p ∈ L, p.1 ≠ [] := by
    intro p hp
    rw [hL] at hp
    obtain ⟨q, hq, rfl⟩ := List.mem_map.mp hp
    exact chunkList_ne_nil bs hbs texts q.2
      (List.getElem?_mem (List.mem_enum_iff_getElem?.mp hq))
  obtain ⟨p, q, tq, hpq, hT, hV⟩ := flatVecs_misalign embedF L j t hnec hjt
    ⟨(cj, decide (retryChunk (fun k => call j k cj) m = none)), hLj,
      decide_eq_true hjfail⟩
    ⟨(ct, decide (retryChunk (fun k => call t k ct) m = none)), hLt,
      decide_eq_false htsucc⟩
  rw [hteq] at hT
  rw [← hveq] at hV
  have hplt : p < (generate_embeddings call m bs texts).length := by
    by_contra hge
    rw [List.getElem?_eq_none (by omega)] at hV
    cases hV
  have hvle : (generate_embeddings call m bs texts).length ≤ texts.length := by
    rw [hveq]
    calc (flatVecs embedF L).length ≤ (flatTexts L).length :=
          flatVecs_length_le embedF L
      _ = texts.length := by rw [hteq]
  have hpids : p < ids.length := by omega
  refine ⟨p, q, ids.get ⟨p, hpids⟩, tq, Nat.ne_of_lt hpq, ?_, hT, ?_⟩
  · rw [List.getElem?_eq_getElem hpids]
    rfl
  · apply List.getElem?_zip_eq_some.mpr
    refine ⟨?_, hV⟩
    rw [List.getElem?_eq_getElem hpids]
    rfl

/-- Witness for C10 amended: two one-text chunks, the first failing, the second
succeeding; media id m1 ends up paired with the embedding of m2's text. -/
theorem c10_witness :
    (0 < 1 ∧ (["m1", "m2"] : List String).length = (["t1", "t2"] : List String).length
        ∧ (∀ s, embedW s ≠ ([] : Vec))
        ∧ (∀ p ∈ (chunkList 1 ["t1", "t2"]).enum,
            retryChunk (fun k => callFail0W p.1 k p.2) 1 = none
              ∨ retryChunk (fun k => callFail0W p.1 k p.2) 1 = some (p.2.map embedW))
        ∧ (0 : Nat) < 1 ∧ 1 < (chunkList 1 ["t1", "t2"]).length
        ∧ retryChunk (fun k => callFail0W 0 k ((chunkList 1 ["t1", "t2"]).getD 0 [])) 1 = none
        ∧ retryChunk (fun k => callFail0W 1 k ((chunkList 1 ["t1", "t2"]).getD 1 [])) 1 ≠ none)
      ∧ (∃ (p q : Nat) (a tq : String), p ≠ q
          ∧ (["m1", "m2"] : List String)[p]? = some a
          ∧ (["t1", "t2"] : List String)[q]? = some tq
          ∧ (List.zip ["m1", "m2"] (generate_embeddings callFail0W 1 1 ["t1", "t2"]))[p]?
              = some (a, embedW tq))
      ∧ List.zip ["m1", "m2"] (generate_embeddings callFail0W 1 1 ["t1", "t2"])
          = [("m1", embedW "t2")] := by
  have hne : ∀ s, embedW s ≠ ([] : Vec) := by
    intro s
    by_cases h1 : s = "ut" <;> by_cases h2 : s = "t1" <;> simp [embedW, h1, h2]
  refine ⟨⟨by decide, rfl, hne, by decide, by decide, by decide, by decide, by decide⟩, ?_, by decide⟩
  exact (c10_amended ["m1", "m2"] ["t1", "t2"] 1 1 callFail0W embedW
    (by decide) rfl hne (by decide) 0 1 (by decide) (by decide)
    (by decide) (by decide)).2

/-- C1: the spec requires failure isolation — the failed media item excluded,
all other items ranked with their own embeddings — but the code's positional
`dict(zip(...))` misaligns after a non-final chunk failure.  With two media
items and the chunk of the first failing, the run recommends exactly the
failed item m1 (carrying m2's embedding score) and silently drops m2. -/
theorem c1_code_bug :
    (runBatch true (.ok ()) false (.ok ()) [("u1", "ut")] [("m1", "t1"), ("m2", "t2")]
          callOkW callFail0W 1 1 "cosine" scoreW scoreW 5 "TS" (.ok [])).rows
        = [⟨"u1", "m1", 1, 3, "TS"⟩]
      ∧ ((runBatch true (.ok ()) false (.ok ()) [("u1", "ut")] [("m1", "t1"), ("m2", "t2")]
          callOkW callFail0W 1 1 "cosine" scoreW scoreW 5 "TS" (.ok [])).rows.map
            Row.recommended_media_id) = ["m1"]
      ∧ "m2" ∉ ((runBatch true (.ok ()) false (.ok ()) [("u1", "ut")] [("m1", "t1"), ("m2", "t2")]
          callOkW callFail0W 1 1 "cosine" scoreW scoreW 5 "TS" (.ok [])).rows.map
            Row.recommended_media_id)
      ∧ embedW "t2" = [3] := by
  exact ⟨by decide, by decide, by decide, by decide⟩

/-- Witness for C6 amended at concrete inputs: the retry-failure
characterization at max_retries = 2, and chunk isolation for an always-failing
single chunk. -/
theorem c6_witness :
    ((∀ cj, cj ≠ 0 → ∀ (a : Nat) (ch : List String), callAllFailW cj a ch = callAllFailW cj a ch)
        ∧ retryChunk (fun a => callAllFailW 0 a ((chunkList 1 ["t1"]).getD 0 [])) 1 = none)
      ∧ (retryChunk callThirdTimeW 2 = none ↔ ∀ k < 2, callThirdTimeW k = none)
      ∧ attemptsUsed callThirdTimeW 0 2 ≤ 2
      ∧ generate_embeddings callAllFailW 1 1 ["t1"]
          = generate_embeddings callAllFailW 1 1 ["t1"] := by
  refine ⟨⟨fun cj _ a ch => rfl, by decide⟩, (c6_amended.1 callThirdTimeW 2).1,
    (c6_amended.1 callThirdTimeW 2).2, ?_⟩
  exact c6_amended.2 callAllFailW callAllFailW 1 1 ["t1"] 0
    (fun cj _ a ch => rfl) (by decide) (by decide)

/-! ## C3 -/

/-- C3 as stated is false for a negative configured top-N: with
`top_n_to_store = -1` and two valid media candidates, user u1 appears in the
output with rank set {1}, while the claimed k = min(top-N, valid count) =
min(-1, 2) is negative, making the claimed rank set {1, ..., k} empty. -/
theorem c3_counterexample :
    (((runBatch true (.ok ()) false (.ok ()) [("u1", "ut")]
          [("m1", "t1"), ("m2", "t2")] callOkW callOkW 1 1 "cosine"
          scoreW scoreW (-1) "TS" (.ok [])).rows.filter
        (fun r => r.user_id == "u1")).map Row.rank) = [1]
      ∧ min (-1 : Int) 2 < 1 := by
  exact ⟨by decide, by decide⟩

/-- C3 amended: with a valid metric and duplicate-free user identifiers, every
user's rows in a batch run carry the rank values 1, ..., k exactly (contiguous,
no gaps, no duplicates), with k = sliceLen top-N (valid media count) — which is
min(top-N, valid count) for non-negative top-N and the Python negative-slice
length otherwise — and, in rank order, non-increasing similarity scores. -/
theorem c3_amended (recE recE' : Bool) (d c : Except String Unit)
    (users media : List (String × String))
    (callU callM : Nat → Nat → List String → Option (List Vec))
    (maxRetries batchSize : Nat) (metric : String) (cos dist : Vec → Vec → ℚ)
    (topN : Int) (ts : String) (ins : Except String (List String))
    (hm : metric = "cosine" ∨ metric = "euclidean")
    (husers : (users.map Prod.fst).Nodup) (u : String) :
    (((runBatch recE d recE' c users media callU callM maxRetries batchSize
          metric cos dist topN ts ins).rows.filter
        (fun r => r.user_id == u)).map Row.rank)
        = List.range' 1 ((runBatch recE d recE' c users media callU callM
            maxRetries batchSize metric cos dist topN ts ins).rows.filter
          (fun r => r.user_id == u)).length
      ∧ (((runBatch recE d recE' c users media callU callM maxRetries batchSize
            metric cos dist topN ts ins).rows.filter
          (fun r => r.user_id == u)) ≠ [] →
        ((runBatch recE d recE' c users media callU callM maxRetries batchSize
            metric cos dist topN ts ins).rows.filter
          (fun r => r.user_id == u)).length
          = sliceLen topN (validMedia ((media.map Prod.fst).zip
              (generate_embeddings callM maxRetries batchSize
                (media.map Prod.snd)))).length)
      ∧ ((((runBatch recE d recE' c users media callU callM maxRetries batchSize
            metric cos dist topN ts ins).rows.filter
          (fun r => r.user_id == u)).map Row.similarity_score).Pairwise
        (fun a b => b ≤ a)) := by
  rw [runBatch_eq_ok recE d recE' c users media callU callM maxRetries
    batchSize cos dist topN ts ins hm]
  simp only [batchRowsOk]
  have hN : ((((users.map Prod.fst).zip (generate_embeddings callU maxRetries
      batchSize (users.map Prod.snd))).map Prod.fst)).Nodup := by
    rw [map_fst_zip_take]
    exact (List.take_sublist _ _).nodup husers
  rw [filter_flatten_blocks (metricFn cos dist metric) topN ts _ u _ hN]
  cases hfind : (((users.map Prod.fst).zip (generate_embeddings callU maxRetries
      batchSize (users.map Prod.snd)))).find? (fun p => p.1 == u) with
  | none => simp
  | some p =>
    obtain ⟨uid, uemb⟩ := p
    refine ⟨userRowsOk_ranks _ _ _ _ _ _, ?_, userRowsOk_scores _ _ _ _ _ _⟩
    intro hne
    by_cases h1 : uemb.isEmpty
    · exact absurd (by simp [userRowsOk, h1]) hne
    · by_cases h2 : (validMedia ((media.map Prod.fst).zip
          (generate_embeddings callM maxRetries batchSize
            (media.map Prod.snd)))).isEmpty
      · exact absurd (by simp [userRowsOk, h1, h2]) hne
      · exact userRowsOk_length _ _ _ _ _ _ (by simpa using h1) (by simpa using h2)

/-- Witness for C3 amended: a one-user two-media cosine run with top-N 5. -/
theorem c3_witness :
    (((([("u1", "ut")] : List (String × String)).map Prod.fst).Nodup
        ∧ ("cosine" = "cosine" ∨ "cosine" = "euclidean"))
      ∧ (((runBatch true (.ok ()) false (.ok ()) [("u1", "ut")]
            [("m1", "t1"), ("m2", "t2")] callOkW callOkW 1 1 "cosine"
            scoreW scoreW 5 "TS" (.ok [])).rows.filter
          (fun r => r.user_id == "u1")).map Row.rank)
          = List.range' 1 ((runBatch true (.ok ()) false (.ok ()) [("u1", "ut")]
              [("m1", "t1"), ("m2", "t2")] callOkW callOkW 1 1 "cosine"
              scoreW scoreW 5 "TS" (.ok [])).rows.filter
            (fun r => r.user_id == "u1")).length)
      ∧ (((runBatch true (.ok ()) false (.ok ()) [("u1", "ut")]
            [("m1", "t1"), ("m2", "t2")] callOkW callOkW 1 1 "cosine"
            scoreW scoreW 5 "TS" (.ok [])).rows.filter
          (fun r => r.user_id == "u1")).map Row.rank) = [1, 2] := by
  refine ⟨⟨⟨by decide, Or.inl rfl⟩, ?_⟩, by decide⟩
  exact (c3_amended true false (.ok ()) (.ok ()) [("u1", "ut")]
    [("m1", "t1"), ("m2", "t2")] callOkW callOkW 1 1 "cosine" scoreW scoreW
    5 "TS" (.ok []) (Or.inl rfl) (by decide) "u1").1

end VertexReco
